import Mathlib

/-!
Verification development for the QueueBasedChat_System repository.

The Python source is shallowly embedded: message texts are `List Char`
(Python `str` as a sequence of code points, all inputs of interest are
ASCII), machine time `time.time()` is an explicit `Nat` parameter `now`,
and every method is a pure function from state to state.  `print`
statements of the source are not modelled.
-/

/-- Python whitespace test for `str.strip` / the regex class `\s`
(restricted to the ASCII whitespace characters, which are the only ones
occurring in this development). -/
def pyIsSpace (c : Char) : Bool :=
  c = ' ' || c = '\t' || c = '\n' || c = '\r'

/-- Python `str.strip()`: drop leading and trailing whitespace. -/
def pyStrip (s : List Char) : List Char :=
  ((s.dropWhile pyIsSpace).reverse.dropWhile pyIsSpace).reverse

/-- Python `str.lower()` restricted to ASCII letters (the keyword tables
and all texts of interest are ASCII). -/
def pyLowerChar (c : Char) : Char :=
  if 'A' ≤ c ∧ c ≤ 'Z' then Char.ofNat (c.toNat + 32) else c

/-- `str.lower()` on a whole string. -/
def pyLower (s : List Char) : List Char :=
  s.map pyLowerChar

/-- Does `hay` start with `needle`? (helper for substring containment). -/
def startsWithL : List Char → List Char → Bool
  | [], _ => true
  | _ :: _, [] => false
  | a :: as, b :: bs => a = b && startsWithL as bs

/-- Python's substring test `needle in hay`. -/
def containsSub (needle : List Char) : List Char → Bool
  | [] => needle.isEmpty
  | c :: rest => startsWithL needle (c :: rest) || containsSub needle rest

/-- ASCII uppercase letter test. -/
def isAsciiUpperChar (c : Char) : Bool := 'A' ≤ c && c ≤ 'Z'

/-- ASCII lowercase letter test. -/
def isAsciiLowerChar (c : Char) : Bool := 'a' ≤ c && c ≤ 'z'

/-- Python `str.isupper()` for ASCII text: at least one cased character
and no lowercase cased character. -/
def pyIsUpper (s : List Char) : Bool :=
  s.any (fun c => isAsciiUpperChar c || isAsciiLowerChar c) &&
    s.all (fun c => !isAsciiLowerChar c)

/-- `html.escape` of one character (`quote=True`, the default used by the
source). -/
def htmlEscapeChar (c : Char) : List Char :=
  if c = '&' then "&amp;".data
  else if c = '<' then "&lt;".data
  else if c = '>' then "&gt;".data
  else if c = '"' then "&quot;".data
  else if c = '\'' then "&#x27;".data
  else [c]

/-- `html.escape(s)`. -/
def htmlEscape (s : List Char) : List Char :=
  s.flatMap htmlEscapeChar

/-- The regex class `\w` of `message_utils.validate_username`, restricted
to ASCII (letters, digits, underscore). -/
def isWordChar (c : Char) : Bool :=
  isAsciiUpperChar c || isAsciiLowerChar c || ('0' ≤ c && c ≤ '9') || c = '_'

/-- `PriorityMessageQueue.URGENT_KEYWORDS`. -/
def URGENT_KEYWORDS : List (List Char) :=
  ["urgent".data, "emergency".data, "help".data, "asap".data, "911".data,
   "critical".data, "bug".data, "down".data, "broken".data, "crash".data]

/-- `PriorityMessageQueue.HIGH_KEYWORDS`. -/
def HIGH_KEYWORDS : List (List Char) :=
  ["important".data, "priority".data, "meeting".data, "deadline".data,
   "issue".data, "attention".data, "review".data, "approval".data]

/-- `PriorityMessageQueue.auto_detect_priority`: keyword rules on the
lower-cased stripped text, then the `@`, all-caps and `!!!` rules on the
original text, else NORMAL. -/
def autoDetectPriority (message : List Char) : Int :=
  let messageLower := pyStrip (pyLower message)
  if URGENT_KEYWORDS.any (fun k => containsSub k messageLower) then 1
  else if HIGH_KEYWORDS.any (fun k => containsSub k messageLower) then 2
  else if message.contains '@' && decide (1 < message.length) then 2
  else if decide (5 < message.length) && pyIsUpper message then 2
  else if decide (3 ≤ message.count '!') then 2
  else 3

/-- `PriorityMessageQueue.get_priority_name`: `PRIORITY_NAMES.get(p, "NORMAL")`. -/
def getPriorityName (priority : Int) : List Char :=
  if priority = 1 then "URGENT".data
  else if priority = 2 then "HIGH".data
  else if priority = 3 then "NORMAL".data
  else if priority = 4 then "LOW".data
  else "NORMAL".data

/-- The message dict built by `PriorityMessageQueue.add_message`. -/
structure Msg where
  text : List Char
  priority : Int
  priority_name : List Char
  user : List Char
  timestamp : Nat
  counter : Nat
  detection_method : List Char
  deriving DecidableEq

/-- One tuple `(priority, counter, message_obj)` of the heap
`PriorityMessageQueue.priority_queue`. -/
structure HeapEntry where
  pri : Int
  seq : Nat
  msg : Msg
  deriving DecidableEq

/-- `CircularQueue` (`collections.deque(maxlen=max_size)`). -/
structure CircularQueue (α : Type) where
  queue : List α
  max_size : Nat
  deriving DecidableEq

/-- `CircularQueue.enqueue`: append, evicting from the front beyond
`max_size` (the semantics of `deque(maxlen=...)`. -/
def circEnqueue (c : CircularQueue α) (x : α) : CircularQueue α :=
  { c with queue := (c.queue ++ [x]).drop ((c.queue ++ [x]).length - c.max_size) }

/-- `CircularQueue.clear`. -/
def circClear (c : CircularQueue α) : CircularQueue α :=
  { c with queue := [] }

/-- The mutable state of `PriorityMessageQueue`. -/
structure PMQState where
  priority_queue : List HeapEntry
  history : CircularQueue Msg
  message_counter : Nat
  deriving DecidableEq

/-- `PriorityMessageQueue.__init__(max_history_size)`. -/
def initPMQ (maxHistorySize : Nat) : PMQState :=
  { priority_queue := [], history := ⟨[], maxHistorySize⟩, message_counter := 0 }

/-- `PriorityMessageQueue.add_message`.  The Python truthiness test
`if manual_priority:` is `manual_priority` being neither `None` nor `0`.
`heapq.heappush` is modelled as appending to the multiset of pending
entries; extraction (`heappop`) picks the least `(priority, counter)`
pair, which is exactly the binary heap's observable contract. -/
def addMessage (now : Nat) (st : PMQState) (message user : List Char)
    (manual_priority : Option Int) : PMQState × Msg :=
  let counter' := st.message_counter + 1
  let pm : Int × List Char :=
    match manual_priority with
    | some p => if p ≠ 0 then (p, "manual".data)
                else (autoDetectPriority message, "auto".data)
    | none => (autoDetectPriority message, "auto".data)
  let msg : Msg :=
    { text := message, priority := pm.1, priority_name := getPriorityName pm.1,
      user := user, timestamp := now, counter := counter',
      detection_method := pm.2 }
  ({ priority_queue := st.priority_queue ++ [⟨pm.1, counter', msg⟩],
     history := circEnqueue st.history msg,
     message_counter := counter' }, msg)

/-- Heap order on entries: lexicographic on `(priority, counter)`.  The
third tuple component is never compared in reachable states because
counters are distinct per heap (Python would raise on comparing dicts). -/
def entryLE (a b : HeapEntry) : Bool :=
  decide (a.pri < b.pri) || (decide (a.pri = b.pri) && decide (a.seq ≤ b.seq))

/-- Remove a least element (w.r.t. `entryLE`) from a list; `none` iff the
list is empty.  Models `heapq.heappop` on the multiset of entries. -/
def popMinEntry : List HeapEntry → Option (HeapEntry × List HeapEntry)
  | [] => none
  | e :: rest =>
    match popMinEntry rest with
    | none => some (e, [])
    | some (m, rest') =>
      if entryLE e m then some (e, rest) else some (m, e :: rest')

/-- `PriorityMessageQueue.get_next_message`: pop the least
`(priority, counter)` entry and return its message dict; `None` when the
queue is empty. -/
def getNextMessage (st : PMQState) : Option Msg × PMQState :=
  match popMinEntry st.priority_queue with
  | none => (none, st)
  | some (e, rest) => (some e.msg, { st with priority_queue := rest })

/-- `PriorityMessageQueue.clear_queue`. -/
def clearQueueOp (st : PMQState) : PMQState :=
  { st with priority_queue := [] }

/-- `PriorityMessageQueue.clear_all`: clears the heap and the history and
resets `message_counter` to 0. -/
def clearAllOp (st : PMQState) : PMQState :=
  { priority_queue := [], history := circClear st.history, message_counter := 0 }

theorem popMinEntry_none_iff (l : List HeapEntry) :
    popMinEntry l = none ↔ l = [] := by
  cases l with
  | nil => simp [popMinEntry]
  | cons e rest =>
    simp only [popMinEntry]
    cases h : popMinEntry rest with
    | none => simp
    | some p =>
      obtain ⟨m, rest'⟩ := p
      by_cases hle : entryLE e m <;> simp [hle]

theorem popMinEntry_length {l : List HeapEntry} {e : HeapEntry}
    {r : List HeapEntry} (h : popMinEntry l = some (e, r)) :
    r.length + 1 = l.length := by
  induction l generalizing e r with
  | nil => simp [popMinEntry] at h
  | cons a rest ih =>
    simp only [popMinEntry] at h
    cases hrest : popMinEntry rest with
    | none =>
      rw [hrest] at h
      rw [(popMinEntry_none_iff rest).mp hrest]
      cases h
      simp
    | some p =>
      obtain ⟨m, rest'⟩ := p
      rw [hrest] at h
      by_cases hle : entryLE a m
      · simp [hle] at h
        obtain ⟨he, hr⟩ := h
        subst hr
        simp
      · simp [hle] at h
        obtain ⟨he, hr⟩ := h
        subst hr
        have := ih hrest
        simp at this ⊢
        omega

/-- Repeatedly run `get_next_message` until the queue is empty, collecting
the returned message dicts in order.  Each step is one `next()` call of
the spec. -/
def drainMessages (st : PMQState) : List Msg :=
  match h : popMinEntry st.priority_queue with
  | none => []
  | some (e, rest) => e.msg :: drainMessages { st with priority_queue := rest }
termination_by st.priority_queue.length
decreasing_by
  have := popMinEntry_length h
  simp
  omega

/-- One admission request: the arguments of an `add_message` call. -/
structure AddSpec where
  text : List Char
  user : List Char
  mp : Option Int
  deriving DecidableEq

/-- Run a sequence of admissions, collecting the admitted message objects
in admission order. -/
def runAdds (now : Nat) (st : PMQState) : List AddSpec → PMQState × List Msg
  | [] => (st, [])
  | a :: rest =>
    let p := addMessage now st a.text a.user a.mp
    let q := runAdds now p.1 rest
    (q.1, p.2 :: q.2)

/-- An operation on the `PriorityMessageQueue` over a process lifetime. -/
inductive QOp where
  | add (a : AddSpec)
  | clearQueue
  | clearAll
  deriving DecidableEq

/-- Run a sequence of operations, collecting the `counter` (sequence)
value assigned by each `add_message` call, in admission order. -/
def runOps (now : Nat) (st : PMQState) : List QOp → PMQState × List Nat
  | [] => (st, [])
  | QOp.add a :: rest =>
    let p := addMessage now st a.text a.user a.mp
    let q := runOps now p.1 rest
    (q.1, p.2.counter :: q.2)
  | QOp.clearQueue :: rest => runOps now (clearQueueOp st) rest
  | QOp.clearAll :: rest => runOps now (clearAllOp st) rest

/-- The sequence values assigned by the adds in `ops`, starting from a
fresh `PriorityMessageQueue(max_history_size=cap)`. -/
def assignedSeqs (now cap : Nat) (ops : List QOp) : List Nat :=
  (runOps now (initPMQ cap) ops).2

/-- `BatchQueue` state (`models/batch_queue.py`). -/
structure BatchQueue (α : Type) where
  queue : List α
  min_batch_size : Nat
  max_batch_size : Nat
  deriving DecidableEq

/-- `BatchQueue.enqueue`. -/
def batchEnqueue (b : BatchQueue α) (m : α) : BatchQueue α :=
  { b with queue := b.queue ++ [m] }

/-- `BatchQueue.flush`: empty result when below `min_batch_size`,
otherwise pop oldest-first until the queue is empty or the batch reached
`max_batch_size`. -/
def batchFlush (b : BatchQueue α) : List α × BatchQueue α :=
  if b.queue.length < b.min_batch_size then ([], b)
  else (b.queue.take b.max_batch_size,
        { b with queue := b.queue.drop b.max_batch_size })

/-- `BatchQueue.force_flush`. -/
def batchForceFlush (b : BatchQueue α) : List α × BatchQueue α :=
  (b.queue, { b with queue := [] })

/-- One tuple `(message, retry_count, next_time)` of `RetryQueue.queue`. -/
structure RetryEntry (α : Type) where
  msg : α
  retry_count : Nat
  next_time : Nat
  deriving DecidableEq

/-- `RetryQueue` state (`models/retry_queue.py`). -/
structure RetryQueue (α : Type) where
  queue : List (RetryEntry α)
  max_retries : Nat
  deriving DecidableEq

/-- `RetryQueue.enqueue(message, retry_count)`: deadline
`now + 2 ** retry_count` (exponential backoff), appended at the tail.
The Python default argument is `retry_count = 0`. -/
def retryEnqueue (now : Nat) (rq : RetryQueue α) (m : α) (retry_count : Nat) :
    RetryQueue α :=
  { rq with queue := rq.queue ++ [⟨m, retry_count, now + 2 ^ retry_count⟩] }

/-- `RetryQueue.get_ready_message`: inspect only the head entry; pop and
return it when its deadline has passed, else return `None` leaving the
queue unchanged. -/
def getReadyMessage (now : Nat) (rq : RetryQueue α) :
    Option (α × Nat) × RetryQueue α :=
  match rq.queue with
  | [] => (none, rq)
  | e :: rest =>
    if e.next_time ≤ now then (some (e.msg, e.retry_count), { rq with queue := rest })
    else (none, rq)

/-- `RetryQueue.process`: take a ready entry; return its message when its
`retry_count` is below `max_retries`, else drop it (return `None`). -/
def retryProcess (now : Nat) (rq : RetryQueue α) : Option α × RetryQueue α :=
  match getReadyMessage now rq with
  | (none, rq') => (none, rq')
  | (some (m, rc), rq') =>
    if rc < rq.max_retries then (some m, rq') else (none, rq')

/-- Characterization of a successful `process()` call: it pops the head
entry, whose deadline must have passed and whose retry count must be
below the cap, and returns that entry's message. -/
theorem retryProcess_some {α : Type} {now : Nat} {rq rq' : RetryQueue α}
    {m : α} (h : retryProcess now rq = (some m, rq')) :
    ∃ rc nt rest, rq.queue = ⟨m, rc, nt⟩ :: rest ∧ nt ≤ now ∧
      rc < rq.max_retries ∧ rq' = { rq with queue := rest } := by
  unfold retryProcess getReadyMessage at h
  cases hq : rq.queue with
  | nil => rw [hq] at h; simp at h
  | cons e rest =>
    obtain ⟨em, erc, ent⟩ := e
    rw [hq] at h
    by_cases hnt : ent ≤ now
    · simp only [hnt, if_true] at h
      by_cases hrc : erc < rq.max_retries
      · simp [hrc] at h
        obtain ⟨hm, hrq⟩ := h
        subst hm
        exact ⟨erc, ent, rest, rfl, hnt, hrc, hrq.symm⟩
      · simp [hrc] at h
    · simp [hnt] at h

/-- Number of entries whose deadline has passed (termination measure for
the coordinator's retry-drain loop). -/
def readyCount (now : Nat) (q : List (RetryEntry α)) : Nat :=
  (q.filter (fun e => decide (e.next_time ≤ now))).length

theorem readyCount_append (now : Nat) (q r : List (RetryEntry α)) :
    readyCount now (q ++ r) = readyCount now q + readyCount now r := by
  simp [readyCount, List.filter_append]

/-- `ChatSocketHandlers.process_retry_queue`: repeatedly `process()` the
retry queue; a returned message is redelivered (`emit`), and on delivery
failure re-enqueued via `RetryQueue.enqueue(retry_msg)` — i.e. with the
DEFAULT `retry_count = 0`; the loop stops when `process()` returns
`None`.  `deliver` is the delivery oracle (`True` = the `emit` call
succeeds, `False` = it raises). -/
def processRetryQueue (now : Nat) (deliver : α → Bool) (rq : RetryQueue α) :
    RetryQueue α :=
  match h : retryProcess now rq with
  | (none, rq') => rq'
  | (some m, rq') =>
    if deliver m then processRetryQueue now deliver rq'
    else processRetryQueue now deliver (retryEnqueue now rq' m 0)
termination_by readyCount now rq.queue
decreasing_by
  · obtain ⟨rc, nt, rest, hq, hnt, hrc, hrq⟩ := retryProcess_some h
    subst hrq
    simp [hq, readyCount, hnt]
  · obtain ⟨rc, nt, rest, hq, hnt, hrc, hrq⟩ := retryProcess_some h
    subst hrq
    simp only [retryEnqueue]
    rw [hq]
    show readyCount now (rest ++ [⟨m, 0, now + 2 ^ 0⟩]) < readyCount now (_ :: rest)
    rw [readyCount_append]
    have h1 : readyCount now [(⟨m, 0, now + 2 ^ 0⟩ : RetryEntry α)] = 0 := by
      simp [readyCount]
    have h2 : readyCount now ((⟨m, rc, nt⟩ : RetryEntry α) :: rest) =
        readyCount now rest + 1 := by
      simp [readyCount, hnt]
    omega

/-- Result dict of `message_utils.validate_message` (`error` is `[]` when
the key is absent, `contains_profanity` is `false` when absent). -/
structure ValidationResult where
  valid : Bool
  error : List Char
  sanitized_message : List Char
  contains_profanity : Bool
  deriving DecidableEq

/-- `message_utils.validate_message`: strip, reject empty, reject length
over 2000, HTML-escape, profanity scan. -/
def validateMessage (message : List Char) : ValidationResult :=
  let m := pyStrip message
  if m.isEmpty then
    ⟨false, "Message cannot be empty".data, [], false⟩
  else if 2000 < m.length then
    ⟨false, "Message too long (max 2000 characters)".data, m.take 2000, false⟩
  else
    let sanitized := htmlEscape m
    let profanityWords : List (List Char) := ["badword1".data, "badword2".data]
    ⟨true, [], sanitized,
      profanityWords.any (fun w => containsSub w (pyLower sanitized))⟩

/-- Result dict of `message_utils.validate_username`. -/
structure UsernameResult where
  valid : Bool
  sanitized_username : List Char
  was_modified : Bool
  deriving DecidableEq

/-- `message_utils.validate_username`: strip, substitute "Anonymous" for
the empty name, cap at 50, strip characters outside `\w`, `-`, `\s`,
HTML-escape.  Note the order: the empty-default substitution happens
BEFORE disallowed characters are stripped. -/
def validateUsername (username : List Char) : UsernameResult :=
  let u1 := pyStrip username
  let u2 := if u1.isEmpty then "Anonymous".data else u1
  let u3 := if 50 < u2.length then u2.take 50 else u2
  let u4 := u3.filter (fun c => isWordChar c || c = '-' || pyIsSpace c)
  let u5 := htmlEscape u4
  ⟨true, u5, u5 != u5⟩

/-- The formatted payload of `message_utils.format_message_for_client`. -/
structure ClientMsg where
  text : List Char
  user : List Char
  priority : Int
  priority_name : List Char
  timestamp : Nat
  formatted_time : List Char
  detection_method : List Char
  deriving DecidableEq

/-- Two decimal digits. -/
def twoDigits (n : Nat) : List Char :=
  [Char.ofNat (48 + (n / 10) % 10), Char.ofNat (48 + n % 10)]

/-- `message_utils.format_timestamp` ("%H:%M:%S"), modelled on a `Nat`
timestamp in UTC. -/
def formatTimestamp (t : Nat) : List Char :=
  twoDigits ((t / 3600) % 24) ++ ":".data ++ twoDigits ((t / 60) % 60) ++
    ":".data ++ twoDigits (t % 60)

/-- `message_utils.format_message_for_client`. -/
def formatMessageForClient (m : Msg) : ClientMsg :=
  ⟨m.text, m.user, m.priority, m.priority_name, m.timestamp,
   formatTimestamp m.timestamp, m.detection_method⟩

/-- The `socket_handlers` normalization of the `priority` field of the
event payload (lines 107-114): a value outside `[1, 2, 3, 4]` is replaced
by `None` before `add_message` is called. -/
def normalizeManual (p : Option Int) : Option Int :=
  match p with
  | none => none
  | some n => if n = 1 ∨ n = 2 ∨ n = 3 ∨ n = 4 then some n else none

/-- The `data` dict of a `send_message` event (`data.get('priority')` is
modelled as already an integer or absent; the `int()` conversion of a
non-integer raising is subsumed by `none`). -/
structure EventData where
  message : List Char
  user : List Char
  priority : Option Int
  deriving DecidableEq

/-- An event emitted back to clients during `on_send_message`. -/
inductive Emit where
  | errorEvent (etype : List Char) (emsg : List Char)
  | newMessageBatch (batch : List ClientMsg)
  deriving DecidableEq

/-- The shared mutable state touched by `ChatSocketHandlers.on_send_message`. -/
structure CoordState where
  message_system : PMQState
  batch_queue : BatchQueue ClientMsg
  retry_queue : RetryQueue ClientMsg
  deriving DecidableEq

/-- `ChatSocketHandlers.on_send_message`.  `batchOk` and `deliver` are the
delivery oracles for the batch broadcast and for single retry resends
(`False` = the `emit` raises).  Returns the handler's boolean result, the
error/broadcast events it emitted (retry-path emissions are not
recorded), and the updated shared state. -/
def onSendMessage (now : Nat) (batchOk : List ClientMsg → Bool)
    (deliver : ClientMsg → Bool) (data : EventData) (st : CoordState) :
    Bool × List Emit × CoordState :=
  let mv := validateMessage data.message
  if ¬ mv.valid then
    (false, [Emit.errorEvent "validation_error".data mv.error], st)
  else
    let uv := validateUsername data.user
    let cleanUser := uv.sanitized_username
    let cleanMessage := mv.sanitized_message
    let manualPriority := normalizeManual data.priority
    let p1 := addMessage now st.message_system cleanMessage cleanUser manualPriority
    let p2 := getNextMessage p1.1
    match p2.1 with
    | none => (false, [], { st with message_system := p2.2 })
    | some nextMsg =>
      let formatted := formatMessageForClient nextMsg
      let bq1 := batchEnqueue st.batch_queue formatted
      let fl := batchFlush bq1
      let rq1 :=
        if fl.1.isEmpty then st.retry_queue
        else if batchOk fl.1 then st.retry_queue
        else fl.1.foldl (fun rq m => retryEnqueue now rq m 0) st.retry_queue
      let rq2 := processRetryQueue now deliver rq1
      (true,
       if fl.1.isEmpty then [] else if batchOk fl.1 then [Emit.newMessageBatch fl.1] else [],
       { message_system := p2.2, batch_queue := fl.2, retry_queue := rq2 })

/-- Claim C7: automatic priority detection yields URGENT (1) for
"this is urgent!!!" (the urgent-keyword rule preempts the later rules),
HIGH (2) for "PLEASE REVIEW NOW", HIGH (2) for "hello @bob", NORMAL (3)
for "hi"; and `add_message` with `manual_priority=1` on "hi" yields
URGENT with manual provenance. -/
theorem C7_auto_detection_examples :
    autoDetectPriority "this is urgent!!!".data = 1 ∧
    autoDetectPriority "PLEASE REVIEW NOW".data = 2 ∧
    autoDetectPriority "hello @bob".data = 2 ∧
    autoDetectPriority "hi".data = 3 ∧
    (addMessage 0 (initPMQ 1000) "hi".data "alice".data (some 1)).2.priority = 1 ∧
    (addMessage 0 (initPMQ 1000) "hi".data "alice".data (some 1)).2.detection_method
      = "manual".data := by
  decide

/-- Claim C8, counterexample: calling `add_message` directly with the
invalid manual priority 7 does NOT fall back to automatic detection: the
stored message has priority 7 with provenance "manual" (automatic
detection on "hi" would give 3 with provenance "auto").  The membership
check `manual_priority in [1, 2, 3, 4]` lives in
`ChatSocketHandlers.on_send_message`, not in `add_message`. -/
theorem C8_counterexample_add_message_stores_invalid_manual :
    (addMessage 0 (initPMQ 1000) "hi".data "Anonymous".data (some 7)).2.priority = 7 ∧
    (addMessage 0 (initPMQ 1000) "hi".data "Anonymous".data (some 7)).2.detection_method
      = "manual".data ∧
    autoDetectPriority "hi".data = 3 := by
  decide

/-- Claim C8 (amended): when a manual priority value reaches
`add_message` through the coordinator's normalization
(`on_send_message`, which replaces any value outside `[1, 2, 3, 4]` by
`None`), an invalid value is silently treated as absent: the stored
message's priority is the one produced by automatic detection and its
provenance is automatic, and no error is raised. -/
theorem C8_invalid_manual_priority_via_handler (p : Int)
    (h1 : p ≠ 1) (h2 : p ≠ 2) (h3 : p ≠ 3) (h4 : p ≠ 4)
    (now : Nat) (st : PMQState) (text user : List Char) :
    (addMessage now st text user (normalizeManual (some p))).2.priority =
      autoDetectPriority text ∧
    (addMessage now st text user (normalizeManual (some p))).2.detection_method =
      "auto".data := by
  have hn : normalizeManual (some p) = none := by
    simp [normalizeManual, h1, h2, h3, h4]
  rw [hn]
  exact ⟨rfl, rfl⟩

/-- Concrete instance of `C8_invalid_manual_priority_via_handler` at
`p = 7` on the text "hi". -/
theorem C8_invalid_manual_priority_via_handler_witness :
    ((7 : Int) ≠ 1 ∧ (7 : Int) ≠ 2 ∧ (7 : Int) ≠ 3 ∧ (7 : Int) ≠ 4) ∧
    ((addMessage 0 (initPMQ 1000) "hi".data "alice".data (normalizeManual (some 7))).2.priority =
       autoDetectPriority "hi".data ∧
     (addMessage 0 (initPMQ 1000) "hi".data "alice".data (normalizeManual (some 7))).2.detection_method =
       "auto".data) :=
  ⟨by decide,
   C8_invalid_manual_priority_via_handler 7 (by decide) (by decide) (by decide)
     (by decide) 0 (initPMQ 1000) "hi".data "alice".data⟩

/-- Claim C6: with `min_batch_size ≤ max_batch_size`, `flush()` returns
an empty batch and leaves the queue unchanged whenever the queue depth is
below `min_batch_size`; otherwise it removes and returns between
`min_batch_size` and `max_batch_size` messages, oldest first, and the
removed messages are exactly the returned ones. -/
theorem C6_batch_flush {α : Type} (b : BatchQueue α)
    (hmm : b.min_batch_size ≤ b.max_batch_size) :
    (b.queue.length < b.min_batch_size → batchFlush b = ([], b)) ∧
    (b.min_batch_size ≤ b.queue.length →
       (batchFlush b).1 = b.queue.take b.max_batch_size ∧
       (batchFlush b).2.queue = b.queue.drop b.max_batch_size ∧
       b.min_batch_size ≤ (batchFlush b).1.length ∧
       (batchFlush b).1.length ≤ b.max_batch_size ∧
       (batchFlush b).1 ++ (batchFlush b).2.queue = b.queue) := by
  unfold batchFlush
  by_cases hlen : b.queue.length < b.min_batch_size
  · refine ⟨fun _ => by rw [if_pos hlen], fun hge => absurd hge (by omega)⟩
  · refine ⟨fun hlt => absurd hlt hlen, fun hge => ?_⟩
    rw [if_neg hlen]
    refine ⟨rfl, rfl, ?_, ?_, ?_⟩
    · simp only [List.length_take]
      omega
    · simp only [List.length_take]
      omega
    · exact List.take_append_drop _ _

/-- Concrete instance of `C6_batch_flush`: a queue of three messages with
thresholds 2 and 3 flushes entirely. -/
theorem C6_batch_flush_witness :
    (2 : Nat) ≤ 3 ∧ (2 : Nat) ≤ 3 ∧
    (batchFlush (BatchQueue.mk ([10, 20, 30] : List Nat) 2 3)).1 = [10, 20, 30] :=
  ⟨by decide, by decide, by
    have h := (C6_batch_flush (BatchQueue.mk ([10, 20, 30] : List Nat) 2 3)
      (by decide)).2 (by decide)
    rw [h.1]
    rfl⟩

/-- Claim C10: a non-empty username whose trimmed form consists only of
disallowed characters is sanitized to the empty name, not to the
"Anonymous" placeholder: the empty-default substitution runs before the
disallowed characters are stripped. -/
theorem C10_all_disallowed_username_becomes_empty (u : List Char)
    (h1 : pyStrip u ≠ [])
    (h2 : ∀ c ∈ pyStrip u, (isWordChar c || c = '-' || pyIsSpace c) = false) :
    (validateUsername u).sanitized_username = [] ∧
    (validateUsername u).sanitized_username ≠ "Anonymous".data := by
  have hne : (pyStrip u).isEmpty = false := by
    simp [List.isEmpty_iff, h1]
  have hu2 : (if (pyStrip u).isEmpty then "Anonymous".data else pyStrip u)
      = pyStrip u := by
    rw [hne]
    rfl
  have hmem : ∀ c ∈ (if 50 < (pyStrip u).length
        then (pyStrip u).take 50 else pyStrip u),
      (isWordChar c || c = '-' || pyIsSpace c) = false := by
    intro c hc
    apply h2
    by_cases h50 : 50 < (pyStrip u).length
    · rw [if_pos h50] at hc
      exact List.take_subset _ _ hc
    · rw [if_neg h50] at hc
      exact hc
  have hfil : (if 50 < (pyStrip u).length
        then (pyStrip u).take 50 else pyStrip u).filter
        (fun c => isWordChar c || c = '-' || pyIsSpace c) = [] := by
    rw [List.filter_eq_nil_iff]
    intro a ha
    simp [hmem a ha]
  have hmain : (validateUsername u).sanitized_username = [] := by
    unfold validateUsername
    simp only [hu2, hfil]
    rfl
  exact ⟨hmain, by rw [hmain]; decide⟩

/-- Concrete instance of `C10_all_disallowed_username_becomes_empty` on
the username "!!!". -/
theorem C10_all_disallowed_username_witness :
    (pyStrip "!!!".data ≠ [] ∧
     ∀ c ∈ pyStrip "!!!".data, (isWordChar c || c = '-' || pyIsSpace c) = false) ∧
    ((validateUsername "!!!".data).sanitized_username = [] ∧
     (validateUsername "!!!".data).sanitized_username ≠ "Anonymous".data) :=
  ⟨⟨by decide, by decide⟩,
   C10_all_disallowed_username_becomes_empty "!!!".data (by decide) (by decide)⟩

/-- Claim C4: `enqueue` at time `t` with attempt count `a` stores the
deadline `t + 2^a`; a `process()` call that returns a message pops the
head entry and does so only when its deadline has passed and its attempt
count is below `max_retries`; and `process()` on an expired entry at or
above `max_retries` consumes it, returning empty, so the entry is gone
from the queue and can never be returned by a later call. -/
theorem C4_retry_backoff_and_drop {α : Type} (now t a maxR : Nat) (m : α)
    (rest : List (RetryEntry α)) :
    (∀ (rq : RetryQueue α),
       (retryEnqueue t rq m a).queue = rq.queue ++ [⟨m, a, t + 2 ^ a⟩]) ∧
    (∀ (m' : α) (rq' : RetryQueue α),
       retryProcess now ⟨⟨m, a, t + 2 ^ a⟩ :: rest, maxR⟩ = (some m', rq') →
         m' = m ∧ t + 2 ^ a ≤ now ∧ a < maxR ∧ rq'.queue = rest) ∧
    (maxR ≤ a → t + 2 ^ a ≤ now →
       retryProcess now ⟨⟨m, a, t + 2 ^ a⟩ :: rest, maxR⟩ = (none, ⟨rest, maxR⟩)) := by
  refine ⟨fun rq => rfl, ?_, ?_⟩
  · intro m' rq' h
    obtain ⟨rc, nt, rest', hq, hnt, hrc, hrq⟩ := retryProcess_some h
    simp only [List.cons.injEq, RetryEntry.mk.injEq] at hq
    obtain ⟨⟨hm, ha, hdl⟩, hrest⟩ := hq
    subst hm
    subst ha
    subst hrest
    rw [← hdl] at hnt
    exact ⟨rfl, hnt, hrc, by rw [hrq]⟩
  · intro hcap hready
    unfold retryProcess getReadyMessage
    simp only [hready, if_true]
    have : ¬ a < maxR := by omega
    simp [this]

/-- Concrete instances of `C4_retry_backoff_and_drop`: an entry enqueued
at time 0 with attempt count 5 and `max_retries = 5` is dropped (and
removed) once its deadline 32 has passed; `enqueue` at time 0 with
attempt count 2 stores deadline 4. -/
theorem C4_retry_backoff_and_drop_witness :
    retryProcess 40 (⟨[⟨(9 : Nat), 5, 0 + 2 ^ 5⟩], 5⟩ : RetryQueue Nat)
      = (none, ⟨[], 5⟩) ∧
    (retryEnqueue 0 (⟨[], 5⟩ : RetryQueue Nat) 7 2).queue = [⟨7, 2, 0 + 2 ^ 2⟩] :=
  ⟨(C4_retry_backoff_and_drop 40 0 5 5 9 []).2.2 (by decide) (by decide),
   (C4_retry_backoff_and_drop 40 0 2 5 7 []).1 ⟨[], 5⟩⟩

/-- Claim C2 is violated by the code (code bug): when redelivery of the
single ready retry entry (attempt count `a`, deadline passed) fails, the
retry-drain step `process_retry_queue` re-enqueues the message via
`RetryQueue.enqueue(retry_msg)` — the DEFAULT `retry_count = 0` — so the
re-enqueued entry carries attempt count 0 and deadline `now + 2^0`, not
attempt count `a + 1` with deadline `now + 2^(a+1)`: the backoff never
grows and the attempt-count cap is never reached on this path
(`RetryQueue.process` does not even expose the attempt count to the
caller). -/
theorem C2_retry_drain_resets_attempt_count {α : Type} (now t a maxR : Nat)
    (m : α) (ha : a < maxR) (hr : t + 2 ^ a ≤ now) :
    processRetryQueue now (fun _ => false)
        (⟨[⟨m, a, t + 2 ^ a⟩], maxR⟩ : RetryQueue α)
      = ⟨[⟨m, 0, now + 2 ^ 0⟩], maxR⟩ ∧
    (0 : Nat) ≠ a + 1 := by
  have hp1 : retryProcess now (⟨[⟨m, a, t + 2 ^ a⟩], maxR⟩ : RetryQueue α)
      = (some m, ⟨[], maxR⟩) := by
    unfold retryProcess getReadyMessage
    simp [hr, ha]
  have hp2 : retryProcess now (⟨[⟨m, 0, now + 2 ^ 0⟩], maxR⟩ : RetryQueue α)
      = (none, ⟨[⟨m, 0, now + 2 ^ 0⟩], maxR⟩) := by
    unfold retryProcess getReadyMessage
    have : ¬ (now + 2 ^ 0 ≤ now) := by omega
    simp [this]
  refine ⟨?_, by omega⟩
  rw [processRetryQueue, hp1]
  simp only [Bool.false_eq_true, if_false, retryEnqueue, List.nil_append]
  rw [processRetryQueue, hp2]

/-- Concrete instance of `C2_retry_drain_resets_attempt_count`: an entry
with attempt count 2 (deadline 4), failing redelivery at time 4, is
re-enqueued with attempt count 0 and deadline 5. -/
theorem C2_retry_drain_resets_attempt_count_witness :
    ((2 : Nat) < 5 ∧ 0 + 2 ^ 2 ≤ 4) ∧
    (processRetryQueue 4 (fun _ => false)
        (⟨[⟨(7 : Nat), 2, 0 + 2 ^ 2⟩], 5⟩ : RetryQueue Nat)
      = ⟨[⟨7, 0, 4 + 2 ^ 0⟩], 5⟩ ∧
    (0 : Nat) ≠ 2 + 1) :=
  ⟨⟨by decide, by decide⟩,
   C2_retry_drain_resets_attempt_count 4 0 2 5 7 (by decide) (by decide)⟩

theorem addMessage_fst_counter (now : Nat) (st : PMQState)
    (t u : List Char) (mp : Option Int) :
    (addMessage now st t u mp).1.message_counter = st.message_counter + 1 := rfl

theorem addMessage_snd_counter (now : Nat) (st : PMQState)
    (t u : List Char) (mp : Option Int) :
    (addMessage now st t u mp).2.counter = st.message_counter + 1 := rfl

theorem runOps_counters_increasing (now : Nat) (ops : List QOp)
    (hno : QOp.clearAll ∉ ops) :
    ∀ st : PMQState,
      (∀ x ∈ (runOps now st ops).2, st.message_counter < x) ∧
      (runOps now st ops).2.Pairwise (· < ·) := by
  induction ops with
  | nil =>
    intro st
    simp [runOps]
  | cons op rest ih =>
    intro st
    have hno' : QOp.clearAll ∉ rest := fun hmem => hno (List.mem_cons_of_mem _ hmem)
    cases op with
    | add a =>
      obtain ⟨h1, h2⟩ := ih hno' (addMessage now st a.text a.user a.mp).1
      rw [addMessage_fst_counter] at h1
      constructor
      · intro x hx
        simp only [runOps, addMessage_snd_counter, List.mem_cons] at hx
        rcases hx with hx | hx
        · omega
        · have := h1 x hx
          omega
      · simp only [runOps, addMessage_snd_counter]
        refine List.Pairwise.cons ?_ h2
        intro x hx
        have := h1 x hx
        omega
    | clearQueue =>
      obtain ⟨h1, h2⟩ := ih hno' (clearQueueOp st)
      constructor
      · intro x hx
        simp only [runOps] at hx
        have := h1 x hx
        simpa [clearQueueOp] using this
      · simpa [runOps] using h2
    | clearAll =>
      exact absurd (List.mem_cons_self QOp.clearAll rest) hno

/-- Claim C3, counterexample: `clear_all` resets `message_counter` to 0,
so over the operation sequence add, clear_all, add the two `add_message`
calls assign the sequence value 1 to two different messages — the
assigned sequence values are not strictly increasing and are reused
within one process lifetime. -/
theorem C3_counterexample_clear_all_reuses_sequence :
    assignedSeqs 0 1000
        [QOp.add ⟨"a".data, "u".data, none⟩, QOp.clearAll,
         QOp.add ⟨"b".data, "u".data, none⟩] = [1, 1] ∧
    ¬ (assignedSeqs 0 1000
        [QOp.add ⟨"a".data, "u".data, none⟩, QOp.clearAll,
         QOp.add ⟨"b".data, "u".data, none⟩]).Pairwise (· < ·) := by
  constructor
  · decide
  · decide

/-- Claim C3 (amended): over any sequence of Priority Engine operations
that does not invoke `clear_all`, the sequence (counter) values assigned
by `add_message` are strictly increasing in admission order and no value
is assigned twice (`clear_all` resets the admission counter to 0, after
which values are reused). -/
theorem C3_sequence_values_increasing (now cap : Nat) (ops : List QOp)
    (hno : QOp.clearAll ∉ ops) :
    (assignedSeqs now cap ops).Pairwise (· < ·) :=
  (runOps_counters_increasing now ops hno (initPMQ cap)).2

/-- Concrete instance of `C3_sequence_values_increasing` on the sequence
add, clear_queue, add (no `clear_all`): the assigned values 1, 2 are
strictly increasing. -/
theorem C3_sequence_values_increasing_witness :
    QOp.clearAll ∉
      [QOp.add ⟨"a".data, "u".data, none⟩, QOp.clearQueue,
       QOp.add ⟨"b".data, "u".data, none⟩] ∧
    (assignedSeqs 0 1000
      [QOp.add ⟨"a".data, "u".data, none⟩, QOp.clearQueue,
       QOp.add ⟨"b".data, "u".data, none⟩]).Pairwise (· < ·) :=
  ⟨by decide,
   C3_sequence_values_increasing 0 1000
     [QOp.add ⟨"a".data, "u".data, none⟩, QOp.clearQueue,
      QOp.add ⟨"b".data, "u".data, none⟩] (by decide)⟩

/-- Fold a list of admissions through `CircularQueue.enqueue`. -/
def circFold (c : CircularQueue α) (xs : List α) : CircularQueue α :=
  xs.foldl circEnqueue c

theorem circEnqueue_length_le {α : Type} (c : CircularQueue α) (x : α) :
    (circEnqueue c x).queue.length ≤ c.max_size := by
  simp [circEnqueue]
  omega

theorem circEnqueue_max_size {α : Type} (c : CircularQueue α) (x : α) :
    (circEnqueue c x).max_size = c.max_size := rfl

/-- A circular queue holding at most its capacity keeps the last
`max_size` elements of everything pushed through it. -/
theorem circFold_queue {α : Type} :
    ∀ (xs : List α) (c : CircularQueue α), c.queue.length ≤ c.max_size →
      (circFold c xs).queue
        = (c.queue ++ xs).drop (c.queue.length + xs.length - c.max_size) := by
  intro xs
  induction xs with
  | nil =>
    intro c hc
    have h0 : c.queue.length - c.max_size = 0 := by omega
    simp [circFold, h0]
  | cons x xs ih =>
    intro c hc
    have hstep : circFold c (x :: xs) = circFold (circEnqueue c x) xs := by
      simp [circFold]
    rw [hstep, ih (circEnqueue c x)
      (by rw [circEnqueue_max_size]; exact circEnqueue_length_le c x)]
    simp only [circEnqueue, List.length_append, List.length_cons, List.length_nil,
      List.length_drop]
    rw [← List.drop_append_of_le_length (by simp)]
    rw [List.drop_drop]
    have hassoc : (c.queue ++ [x]) ++ xs = c.queue ++ x :: xs := by
      rw [List.append_assoc]
      rfl
    rw [hassoc]
    congr 1
    omega

/-- The admitted-message list and history of a run of admissions:
the final history is the circular fold of the admitted messages over the
starting history; capacities are preserved, one message is admitted per
request, counters exceed the starting counter and are strictly
increasing. -/
theorem runAdds_spec (now : Nat) :
    ∀ (adds : List AddSpec) (st : PMQState),
      (runAdds now st adds).1.history = circFold st.history (runAdds now st adds).2 ∧
      (runAdds now st adds).2.length = adds.length ∧
      (∀ m ∈ (runAdds now st adds).2, st.message_counter < m.counter) ∧
      ((runAdds now st adds).2).Pairwise (fun a b => a.counter < b.counter) := by
  intro adds
  induction adds with
  | nil =>
    intro st
    simp [runAdds, circFold]
  | cons a rest ih =>
    intro st
    obtain ⟨ihh, ihl, ihc, ihp⟩ := ih (addMessage now st a.text a.user a.mp).1
    have hrun : runAdds now st (a :: rest)
        = ((runAdds now (addMessage now st a.text a.user a.mp).1 rest).1,
           (addMessage now st a.text a.user a.mp).2 ::
             (runAdds now (addMessage now st a.text a.user a.mp).1 rest).2) := by
      simp [runAdds]
    have hhist : (addMessage now st a.text a.user a.mp).1.history
        = circEnqueue st.history (addMessage now st a.text a.user a.mp).2 := rfl
    refine ⟨?_, ?_, ?_, ?_⟩
    · rw [hrun]
      simp only [circFold, List.foldl_cons]
      rw [ihh, hhist]
      rfl
    · rw [hrun]
      simp [ihl]
    · rw [hrun]
      intro m hm
      simp only [List.mem_cons] at hm
      rcases hm with hm | hm
      · rw [hm, addMessage_snd_counter]
        omega
      · have := ihc m hm
        rw [addMessage_fst_counter] at this
        omega
    · rw [hrun]
      refine List.Pairwise.cons ?_ ihp
      intro m hm
      have := ihc m hm
      rw [addMessage_fst_counter] at this
      rw [addMessage_snd_counter]
      omega

/-- Claim C5: for every sequence of `cap + k` admissions starting from a
fresh engine with history capacity `cap`, the History Buffer holds
exactly the last `cap` admitted messages in admission order — the oldest
`k` admitted messages are absent — and for EVERY sequence of admissions
the buffer never exceeds its configured capacity. -/
theorem C5_history_buffer (now cap k : Nat) (adds : List AddSpec)
    (hlen : adds.length = cap + k) :
    (runAdds now (initPMQ cap) adds).1.history.queue
        = ((runAdds now (initPMQ cap) adds).2).drop k ∧
    (runAdds now (initPMQ cap) adds).1.history.queue.length = cap ∧
    (∀ m ∈ ((runAdds now (initPMQ cap) adds).2).take k,
        m ∉ (runAdds now (initPMQ cap) adds).1.history.queue) ∧
    (∀ adds' : List AddSpec,
        (runAdds now (initPMQ cap) adds').1.history.queue.length ≤ cap) := by
  obtain ⟨hh, hl, _, hp⟩ := runAdds_spec now adds (initPMQ cap)
  have hml : (runAdds now (initPMQ cap) adds).2.length = cap + k := by
    rw [hl, hlen]
  have hq : (runAdds now (initPMQ cap) adds).1.history.queue
      = ((runAdds now (initPMQ cap) adds).2).drop k := by
    rw [hh]
    rw [show (initPMQ cap).history = (⟨[], cap⟩ : CircularQueue Msg) from rfl]
    rw [circFold_queue _ (⟨[], cap⟩ : CircularQueue Msg) (by simp)]
    simp [hml]
  refine ⟨hq, ?_, ?_, ?_⟩
  · rw [hq, List.length_drop, hml]
    omega
  · intro m hm hmem
    rw [hq] at hmem
    have hsplit := List.take_append_drop k (runAdds now (initPMQ cap) adds).2
    have hp2 : (((runAdds now (initPMQ cap) adds).2).take k ++
        ((runAdds now (initPMQ cap) adds).2).drop k).Pairwise
        (fun a b => a.counter < b.counter) := by
      rw [hsplit]
      exact hp
    rw [List.pairwise_append] at hp2
    exact absurd (hp2.2.2 m hm m hmem) (lt_irrefl _)
  · intro adds'
    obtain ⟨hh', _, _, _⟩ := runAdds_spec now adds' (initPMQ cap)
    rw [hh']
    rw [show (initPMQ cap).history = (⟨[], cap⟩ : CircularQueue Msg) from rfl]
    rw [circFold_queue _ (⟨[], cap⟩ : CircularQueue Msg) (by simp)]
    simp
    omega

/-- Concrete instance of `C5_history_buffer`: capacity 2, three
admissions; the buffer retains the last two admitted messages. -/
theorem C5_history_buffer_witness :
    ([AddSpec.mk "a".data "u".data none, AddSpec.mk "b".data "u".data none,
      AddSpec.mk "c".data "u".data none] : List AddSpec).length = 2 + 1 ∧
    (runAdds 0 (initPMQ 2)
        [AddSpec.mk "a".data "u".data none, AddSpec.mk "b".data "u".data none,
         AddSpec.mk "c".data "u".data none]).1.history.queue
      = ((runAdds 0 (initPMQ 2)
        [AddSpec.mk "a".data "u".data none, AddSpec.mk "b".data "u".data none,
         AddSpec.mk "c".data "u".data none]).2).drop 1 :=
  ⟨by decide,
   (C5_history_buffer 0 2 1
     [AddSpec.mk "a".data "u".data none, AddSpec.mk "b".data "u".data none,
      AddSpec.mk "c".data "u".data none] (by decide)).1⟩

theorem entryLE_refl (a : HeapEntry) : entryLE a a = true := by
  simp [entryLE]

theorem entryLE_total {a b : HeapEntry} (h : entryLE a b = false) :
    entryLE b a = true := by
  simp [entryLE] at h ⊢
  omega

theorem entryLE_trans {a b c : HeapEntry} (h1 : entryLE a b = true)
    (h2 : entryLE b c = true) : entryLE a c = true := by
  simp [entryLE] at h1 h2 ⊢
  omega

theorem popMinEntry_mem_self {l : List HeapEntry} {e : HeapEntry}
    {r : List HeapEntry} (h : popMinEntry l = some (e, r)) : e ∈ l := by
  induction l generalizing e r with
  | nil => simp [popMinEntry] at h
  | cons a rest ih =>
    simp only [popMinEntry] at h
    cases hrest : popMinEntry rest with
    | none =>
      rw [hrest] at h
      cases h
      exact List.mem_cons_self a rest
    | some p =>
      obtain ⟨m, rest'⟩ := p
      rw [hrest] at h
      by_cases hle : entryLE a m
      · simp [hle] at h
        rw [h.1.symm]
        exact List.mem_cons_self a rest
      · simp [hle] at h
        rw [h.1.symm]
        exact List.mem_cons_of_mem a (ih hrest)

theorem popMinEntry_mem {l : List HeapEntry} {e : HeapEntry}
    {r : List HeapEntry} (h : popMinEntry l = some (e, r)) :
    ∀ x ∈ r, x ∈ l := by
  induction l generalizing e r with
  | nil => simp [popMinEntry] at h
  | cons a rest ih =>
    simp only [popMinEntry] at h
    cases hrest : popMinEntry rest with
    | none =>
      rw [hrest] at h
      cases h
      simp
    | some p =>
      obtain ⟨m, rest'⟩ := p
      rw [hrest] at h
      by_cases hle : entryLE a m
      · simp [hle] at h
        intro x hx
        rw [← h.2] at hx
        exact List.mem_cons_of_mem a hx
      · simp [hle] at h
        intro x hx
        rw [← h.2] at hx
        rcases List.mem_cons.mp hx with hx | hx
        · rw [hx]
          exact List.mem_cons_self a rest
        · exact List.mem_cons_of_mem a (ih hrest x hx)

theorem popMinEntry_min {l : List HeapEntry} {e : HeapEntry}
    {r : List HeapEntry} (h : popMinEntry l = some (e, r)) :
    ∀ x ∈ l, entryLE e x = true := by
  induction l generalizing e r with
  | nil => simp [popMinEntry] at h
  | cons a rest ih =>
    simp only [popMinEntry] at h
    cases hrest : popMinEntry rest with
    | none =>
      rw [hrest] at h
      cases h
      intro x hx
      rw [(popMinEntry_none_iff rest).mp hrest] at hx
      simp at hx
      rw [hx]
      exact entryLE_refl a
    | some p =>
      obtain ⟨m, rest'⟩ := p
      rw [hrest] at h
      by_cases hle : entryLE a m
      · simp [hle] at h
        intro x hx
        rw [← h.1]
        rcases List.mem_cons.mp hx with hx | hx
        · rw [hx]
          exact entryLE_refl a
        · exact entryLE_trans hle (ih hrest x hx)
      · simp [hle] at h
        intro x hx
        rw [← h.1]
        rcases List.mem_cons.mp hx with hx | hx
        · rw [hx]
          exact entryLE_total (by simpa using hle)
        · exact ih hrest x hx

theorem drainMessages_cases (st : PMQState) :
    (popMinEntry st.priority_queue = none ∧ drainMessages st = []) ∨
    (∃ e rest, popMinEntry st.priority_queue = some (e, rest) ∧
       drainMessages st
         = e.msg :: drainMessages { st with priority_queue := rest }) := by
  cases hpop : popMinEntry st.priority_queue with
  | none =>
    left
    refine ⟨rfl, ?_⟩
    rw [drainMessages]
    split
    · rfl
    · rename_i e rest heq
      rw [hpop] at heq
      cases heq
  | some p =>
    obtain ⟨e, rest⟩ := p
    right
    refine ⟨e, rest, rfl, ?_⟩
    rw [drainMessages]
    split
    · rename_i heq
      rw [hpop] at heq
      cases heq
    · rename_i e' rest' heq
      rw [hpop] at heq
      cases heq
      rfl

theorem drainMessages_mem :
    ∀ (n : Nat) (st : PMQState), st.priority_queue.length ≤ n →
      ∀ m ∈ drainMessages st, ∃ x ∈ st.priority_queue, m = x.msg := by
  intro n
  induction n with
  | zero =>
    intro st hlen m hm
    have hnil : st.priority_queue = [] := by
      cases hq : st.priority_queue with
      | nil => rfl
      | cons a rest => rw [hq] at hlen; simp at hlen
    rcases drainMessages_cases st with ⟨_, hd⟩ | ⟨e, rest, hpop, _⟩
    · rw [hd] at hm
      simp at hm
    · rw [hnil] at hpop
      simp [popMinEntry] at hpop
  | succ n ih =>
    intro st hlen m hm
    rcases drainMessages_cases st with ⟨_, hd⟩ | ⟨e, rest, hpop, hd⟩
    · rw [hd] at hm
      simp at hm
    · rw [hd] at hm
      rcases List.mem_cons.mp hm with hm | hm
    
      · exact ⟨e, popMinEntry_mem_self hpop, hm⟩
      · have hlen' : rest.length ≤ n := by
          have := popMinEntry_length hpop
          omega
        obtain ⟨x, hx, hmx⟩ := ih { st with priority_queue := rest } hlen' m hm
        exact ⟨x, popMinEntry_mem hpop x hx, hmx⟩

/-- The delivery order the spec requires on message dicts:
non-decreasing priority, and within equal priority non-decreasing
sequence (counter). -/
def msgLE (a b : Msg) : Prop :=
  a.priority < b.priority ∨ (a.priority = b.priority ∧ a.counter ≤ b.counter)

/-- Entries whose key components agree with their message dict (true of
every entry `(priority, counter, message_obj)` built by `add_message`). -/
def entryKeyMatch (e : HeapEntry) : Prop :=
  e.pri = e.msg.priority ∧ e.seq = e.msg.counter

theorem entryLE_msgLE {a b : HeapEntry} (ha : entryKeyMatch a)
    (hb : entryKeyMatch b) (h : entryLE a b = true) : msgLE a.msg b.msg := by
  obtain ⟨ha1, ha2⟩ := ha
  obtain ⟨hb1, hb2⟩ := hb
  simp [entryLE] at h
  rw [msgLE, ← ha1, ← hb1, ← ha2, ← hb2]
  rcases h with h | ⟨h1, h2⟩
  · exact Or.inl h
  · exact Or.inr ⟨h1, h2⟩

theorem drainMessages_pairwise :
    ∀ (n : Nat) (st : PMQState), st.priority_queue.length ≤ n →
      (∀ e ∈ st.priority_queue, entryKeyMatch e) →
      (drainMessages st).Pairwise msgLE := by
  intro n
  induction n with
  | zero =>
    intro st hlen hkm
    rcases drainMessages_cases st with ⟨_, hd⟩ | ⟨e, rest, hpop, _⟩
    · rw [hd]
      exact List.Pairwise.nil
    · have := popMinEntry_length hpop
      omega
  | succ n ih =>
    intro st hlen hkm
    rcases drainMessages_cases st with ⟨_, hd⟩ | ⟨e, rest, hpop, hd⟩
    · rw [hd]
      exact List.Pairwise.nil
    · rw [hd]
      have hlen' : rest.length ≤ n := by
        have := popMinEntry_length hpop
        omega
      have hkm' : ∀ x ∈ rest, entryKeyMatch x :=
        fun x hx => hkm x (popMinEntry_mem hpop x hx)
      refine List.Pairwise.cons ?_ (ih { st with priority_queue := rest } hlen' hkm')
      intro m hm
      obtain ⟨x, hx, hmx⟩ := drainMessages_mem n { st with priority_queue := rest }
        hlen' m hm
      rw [hmx]
      exact entryLE_msgLE (hkm e (popMinEntry_mem_self hpop))
        (hkm' x hx)
        (popMinEntry_min hpop x (popMinEntry_mem hpop x hx))

theorem runAdds_keymatch (now : Nat) :
    ∀ (adds : List AddSpec) (st : PMQState),
      (∀ e ∈ st.priority_queue, entryKeyMatch e) →
      ∀ e ∈ (runAdds now st adds).1.priority_queue, entryKeyMatch e := by
  intro adds
  induction adds with
  | nil =>
    intro st h e he
    exact h e he
  | cons a rest ih =>
    intro st h
    have hrun : (runAdds now st (a :: rest)).1
        = (runAdds now (addMessage now st a.text a.user a.mp).1 rest).1 := by
      simp [runAdds]
    rw [hrun]
    refine ih (addMessage now st a.text a.user a.mp).1 ?_
    intro e he
    have hq : (addMessage now st a.text a.user a.mp).1.priority_queue
        = st.priority_queue ++
            [⟨(addMessage now st a.text a.user a.mp).2.priority,
              st.message_counter + 1,
              (addMessage now st a.text a.user a.mp).2⟩] := rfl
    rw [hq] at he
    rcases List.mem_append.mp he with he | he
    · exact h e he
    · simp only [List.mem_singleton] at he
      rw [he]
      exact ⟨rfl, rfl⟩

/-- Claim C1: for every sequence of admitted messages, draining the
Priority Engine by successive `get_next_message` calls returns the
messages in non-decreasing priority order and, within equal priority, in
non-decreasing sequence (counter) order; and `get_next_message` returns
`None` exactly when no messages are pending. -/
theorem C1_next_returns_in_priority_order (now cap : Nat) (adds : List AddSpec) :
    (drainMessages (runAdds now (initPMQ cap) adds).1).Pairwise msgLE ∧
    (∀ st : PMQState, (getNextMessage st).1 = none ↔ st.priority_queue = []) := by
  constructor
  · refine drainMessages_pairwise
      (runAdds now (initPMQ cap) adds).1.priority_queue.length _ le_rfl ?_
    refine runAdds_keymatch now adds (initPMQ cap) ?_
    intro e he
    simp [initPMQ] at he
  · intro st
    unfold getNextMessage
    cases hpop : popMinEntry st.priority_queue with
    | none =>
      simp [(popMinEntry_none_iff st.priority_queue).mp hpop]
    | some p =>
      obtain ⟨e, rest⟩ := p
      simp only
      constructor
      · intro h
        cases h
      · intro h
        rw [h] at hpop
        simp [popMinEntry] at hpop

/-- Concrete instance of `C1_next_returns_in_priority_order`: draining
after three admissions (NORMAL "hi", URGENT "help", NORMAL "ok") yields
the pairwise (priority, sequence) order. -/
theorem C1_next_returns_in_priority_order_witness :
    (drainMessages (runAdds 0 (initPMQ 1000)
        [AddSpec.mk "hi".data "u".data none,
         AddSpec.mk "help".data "u".data none,
         AddSpec.mk "ok".data "u".data none]).1).Pairwise msgLE :=
  (C1_next_returns_in_priority_order 0 1000
    [AddSpec.mk "hi".data "u".data none,
     AddSpec.mk "help".data "u".data none,
     AddSpec.mk "ok".data "u".data none]).1

theorem validateMessage_invalid {message : List Char}
    (hbad : pyStrip message = [] ∨ 2000 < (pyStrip message).length) :
    (validateMessage message).valid = false := by
  unfold validateMessage
  rcases hbad with h | h
  · simp [h]
  · by_cases he : (pyStrip message).isEmpty
    · simp [he]
    · simp [he, h]

/-- Claim C9: a submission whose message text fails validation (empty
after trimming, or longer than 2000 characters) is answered with a
`validation_error` emission and `False`, and the shared structures —
priority queue, history buffer, batch queue and retry queue — are left
exactly as they were. -/
theorem C9_validation_failure_mutates_nothing (now : Nat)
    (batchOk : List ClientMsg → Bool) (deliver : ClientMsg → Bool)
    (d : EventData) (st : CoordState)
    (hbad : pyStrip d.message = [] ∨ 2000 < (pyStrip d.message).length) :
    onSendMessage now batchOk deliver d st
      = (false,
         [Emit.errorEvent "validation_error".data (validateMessage d.message).error],
         st) := by
  have hv : (validateMessage d.message).valid = false := validateMessage_invalid hbad
  unfold onSendMessage
  simp [hv]

/-- Concrete instance of `C9_validation_failure_mutates_nothing`: a
whitespace-only message is rejected and the fresh coordinator state is
untouched. -/
theorem C9_validation_failure_mutates_nothing_witness :
    (pyStrip "   ".data = [] ∨ 2000 < (pyStrip "   ".data).length) ∧
    onSendMessage 0 (fun _ => true) (fun _ => true)
        (EventData.mk "   ".data "u".data none)
        (CoordState.mk (initPMQ 1000) (BatchQueue.mk [] 5 50) (RetryQueue.mk [] 5))
      = (false,
         [Emit.errorEvent "validation_error".data
            (validateMessage "   ".data).error],
         CoordState.mk (initPMQ 1000) (BatchQueue.mk [] 5 50) (RetryQueue.mk [] 5)) :=
  ⟨Or.inl (by decide),
   C9_validation_failure_mutates_nothing 0 (fun _ => true) (fun _ => true)
     (EventData.mk "   ".data "u".data none)
     (CoordState.mk (initPMQ 1000) (BatchQueue.mk [] 5 50) (RetryQueue.mk [] 5))
     (Or.inl (by decide))⟩
